import Mathlib

/-!
Shallow embedding of `oil_report.py` (daily oil and bunker price notifier).

Conventions of the embedding:
* Python strings are `List Char` (`PyStr`); `lit` injects Lean string literals.
* Calendar dates are day numbers (`ℤ`, days since 1970-01-01, which was a
  Thursday); `weekday d = (d + 3) % 7` matches `datetime.weekday()`
  (0 = Monday .. 6 = Sunday).  The program only ever compares, sorts and
  prints its `YYYY-MM-DD` date strings, and on the fixed-width format the
  lexicographic order of date strings agrees with the day-number order, so
  day numbers are a faithful model.
* Prices are `ℚ` (the script's float arithmetic is plain decimal arithmetic
  on prices; `round(x, 2)` / `"%.2f"` are modelled by exact rational
  rounding half-to-even, Python's documented rounding mode).
* Python dicts keyed by dates are insertion-ordered association lists
  (`Dict`), with Python's assignment semantics (`dictSet`) and
  `dict.get(k, "N/A")` (`dictGet`).
* Code that can raise an uncaught exception is modelled in `Except PyExn`.
-/

abbrev PyStr : Type := List Char

def lit (s : String) : PyStr := s.data

/-- A price cell: either the sentinel string `"N/A"` or a numeric price. -/
inductive Val : Type where
  | na : Val
  | num (q : ℚ) : Val
deriving DecidableEq, Repr

/-- A Python dict from dates to price cells, as an insertion-ordered
association list (the program's dicts have distinct keys). -/
abbrev Dict : Type := List (ℤ × Val)

/-- Python `m[k] = v`: replace in place if the key is present, else append. -/
def dictSet (m : Dict) (k : ℤ) (v : Val) : Dict :=
  if k ∈ m.map Prod.fst then
    m.map (fun p => if p.1 = k then (k, v) else p)
  else
    m ++ [(k, v)]

/-- Python `m.get(k, "N/A")` (also models `m[k]` on the program's dicts,
whose keys always cover the report dates). -/
def dictGet (m : Dict) (k : ℤ) : Val :=
  match m.find? (fun p => p.1 = k) with
  | some p => p.2
  | none => Val.na

/-- Round `q * 100` half to even to an integer (Python's `round` mode),
computed on the numerator and denominator: with `q = n / d` (`d > 0`),
the floor of `100 q` is `(100 n).ediv d`, the fractional part is `r / d`
with `r = (100 n).emod d`, and comparing `r / d` with `1/2` is comparing
`2 r` with `d`. -/
def roundHalfEven100 (q : ℚ) : ℤ :=
  let n := 100 * q.num
  let d : ℤ := (q.den : ℤ)
  let f := n / d
  let r := n % d
  if 2 * r < d then f
  else if d < 2 * r then f + 1
  else if f % 2 = 0 then f else f + 1

/-- Python `round(x, 2)`. -/
def round2 (q : ℚ) : ℚ := (roundHalfEven100 q : ℚ) / 100

def digitChar (n : ℕ) : Char := Char.ofNat (48 + n)

/-- Digits of `n`, most significant first; `fuel` bounds the recursion and is
always supplied large enough. -/
def natDigitsCore : ℕ → ℕ → List Char → List Char
  | 0, _, acc => acc
  | _ + 1, 0, acc => acc
  | fuel + 1, n, acc => natDigitsCore fuel (n / 10) (digitChar (n % 10) :: acc)

/-- Decimal rendering of a natural number (Python `str`/`format` on ints). -/
def natToStr (n : ℕ) : PyStr :=
  if n = 0 then ['0'] else natDigitsCore (n + 1) n []

def twoDigits (r : ℕ) : PyStr := [digitChar (r / 10), digitChar (r % 10)]

/-- Python `f"{q:.2f}"`: fixed-point rendering with exactly two decimals. -/
def fmt2 (q : ℚ) : PyStr :=
  let m := roundHalfEven100 q
  let sign : PyStr := if m < 0 ∨ (m = 0 ∧ q.num < 0) then ['-'] else []
  sign ++ natToStr (m.natAbs / 100) ++ '.' :: twoDigits (m.natAbs % 100)

/-- Python `f"{s:<w}"`: left justification with spaces, no truncation. -/
def ljust (w : ℕ) (s : PyStr) : PyStr := s ++ List.replicate (w - s.length) ' '

/-- Rendering of one table cell, as in `format_row`:
`f"{val:.2f}" if isinstance(val, (int, float)) else str(val)`. -/
def pyFmtVal : Val → PyStr
  | Val.na => lit "N/A"
  | Val.num q => fmt2 q

/-- `format_row(label, values_dict, report_dates_ordered)` from the source:
`f"{label:<35} | {' | '.join(f'{v:<6}' for v in formatted_values)}"`. -/
def format_row (label : PyStr) (m : Dict) (dates : List ℤ) : PyStr :=
  ljust 35 label ++ lit " | " ++
    List.intercalate (lit " | ") (dates.map (fun d => ljust 6 (pyFmtVal (dictGet m d))))

/-- Splitting a rendered row on the column delimiter `" | "`, scanning left
to right (Python `str.split(" | ")`). -/
def splitSep : List Char → List (List Char)
  | ' ' :: '|' :: ' ' :: rest => [] :: splitSep rest
  | c :: cs => (splitSep cs).modifyHead (fun h => c :: h)
  | [] => [[]]

/-- Strip trailing spaces (used only to state claims about padded cells). -/
def trimR (s : PyStr) : PyStr := (s.reverse.dropWhile (fun c => c = ' ')).reverse

example : splitSep (lit "a | bc | ") = [lit "a", lit "bc", lit ""] := by decide

example : fmt2 (mkRat 7012 100) = lit "70.12" := by decide

example : fmt2 71 = lit "71.00" := by decide

example : fmt2 (mkRat (-5) 2) = lit "-2.50" := by decide

example : roundHalfEven100 (mkRat 7 3) = 233 := by decide

example : roundHalfEven100 (mkRat 5 2000) = 0 := by decide

example : roundHalfEven100 (mkRat 15 1000) = 2 := by decide

example : ljust 6 (lit "N/A") = lit "N/A   " := by decide

/-! ## Date window calculator (`get_past_business_dates`) -/

/-- `datetime.weekday()`: 0 = Monday .. 6 = Sunday (day 0 is a Thursday). -/
def weekday (d : ℤ) : ℤ := (d + 3) % 7

/-- The `while len(business_dates) < days` loop of `get_past_business_dates`,
collecting weekdays walking backward from `d`.  The structural `fuel`
argument only bounds the recursion; `3 * days + 3` steps always suffice
(`collectBD_length` below), so with the fuel the program supplies the
function is exactly the source's loop. -/
def collectBD : ℕ → ℤ → ℕ → List ℤ
  | 0, _, _ => []
  | _ + 1, _, 0 => []
  | fuel + 1, d, n + 1 =>
    if weekday d ≤ 4 then d :: collectBD fuel (d - 1) n
    else collectBD fuel (d - 1) (n + 1)

/-- `get_past_business_dates(days)` for a run whose `datetime.today()` is
day `today`: collect backward, then `sorted(...)` ascending. -/
def get_past_business_dates (today : ℤ) (days : ℕ) : List ℤ :=
  List.insertionSort (fun a b => a ≤ b) (collectBD (3 * days + 3) today days)

example : get_past_business_dates 6 3 = [4, 5, 6] := by decide

example : get_past_business_dates 20253 3 = [20250, 20251, 20252] := by decide

/-! ## Crude price fetcher (`fetch_crude_price`) -/

/-- One record of the EIA payload's `data` array: its `period` and its
`value` after `pd.to_numeric(..., errors="coerce")` (`none` = non-numeric,
dropped by the `notna()` filter). -/
structure CrudeObs : Type where
  period : ℤ
  value : Option ℚ
deriving DecidableEq, Repr

/-- The parts of an EIA API response that `fetch_crude_price` inspects:
the HTTP status, the `response.data` array, and whether the resulting
frame has the `period` / `value` columns. -/
structure CrudeResponse : Type where
  statusCode : ℤ
  dataRows : List CrudeObs
  hasPeriodCol : Bool
  hasValueCol : Bool
deriving DecidableEq, Repr

/-- `df[df['value'].notna()]['value']`: valid numeric observations in
response order. -/
def validValues (resp : CrudeResponse) : List ℚ :=
  resp.dataRows.filterMap (fun r => r.value)

/-- `series.tail(n)`: the last `min n (length)` elements. -/
def lastN (l : List ℚ) (n : ℕ) : List ℚ := l.drop (l.length - n)

/-- `prices_for_report = {date: "N/A" for date in dates_for_report}`. -/
def initSeries (dates : List ℤ) : Dict :=
  dates.foldl (fun m d => dictSet m d Val.na) []

/-- The assignment loop of `fetch_crude_price`:
`for i, date_str in enumerate(dates): if i < len(latest): ... = round(latest[i], 2)`. -/
def crudeAssign (latest : List ℚ) (init : Dict) (dates : List ℤ) : Dict :=
  (List.enum dates).foldl
    (fun m p =>
      if p.1 < latest.length then dictSet m p.2 (Val.num (round2 (latest.getD p.1 0)))
      else m)
    init

/-- `fetch_crude_price(series_id, api_key, dates_for_report)`, as a function
of the API response it receives; returns the series dict and the printed
diagnostics. -/
def fetch_crude_price (resp : CrudeResponse) (dates : List ℤ) : Dict × List PyStr :=
  let init := initSeries dates
  if resp.statusCode = 200 then
    if resp.dataRows = [] then
      (init, [lit "No data returned from EIA API in the last 30 days."])
    else if resp.hasPeriodCol && resp.hasValueCol then
      (crudeAssign (lastN (validValues resp) dates.length) init dates, [])
    else
      (init, [lit "Unexpected data structure. Expected period and value columns."])
  else
    (init, [lit "Failed to fetch EIA data."])

/-! ## Bunker price extractor (`fetch_singapore_bunker_prices`) -/

/-- Does `s` start with `pat`? -/
def listStarts : PyStr → PyStr → Bool
  | [], _ => true
  | _ :: _, [] => false
  | p :: ps, c :: cs => p = c && listStarts ps cs

/-- Python `pat in s` on strings: substring containment. -/
def strHas (pat : PyStr) : PyStr → Bool
  | [] => listStarts pat []
  | c :: cs => listStarts pat (c :: cs) || strHas pat cs

example : strHas (lit "MGO") (lit "LSMGO $/mt") = true := by decide

example : strHas (lit "MGO") (lit "VLSFO $/mt") = false := by decide

/-- The parts of one `<table>` that the scraper inspects: the `<th>` texts
of its `<thead>` (if it has one), the cell texts of its first `<tr>` (if
any), and the `<td>` texts of the rows of its `<tbody>` (if it has one;
`html.parser` does not synthesize `<tbody>` tags). -/
structure HtmlTable : Type where
  thead : Option (List PyStr)
  firstRow : Option (List PyStr)
  tbodyRows : Option (List (List PyStr))
deriving DecidableEq, Repr

/-- A fetched bunker page, reduced to its tables. -/
structure Page : Type where
  tables : List HtmlTable
deriving DecidableEq, Repr

/-- Uncaught Python exceptions of the modelled code. -/
inductive PyExn : Type where
  | attributeError : PyExn
  | indexError : PyExn
deriving DecidableEq, Repr

instance exceptDecEq {ε α : Type} [DecidableEq ε] [DecidableEq α] :
    DecidableEq (Except ε α) := fun x y =>
  match x, y with
  | Except.ok a, Except.ok b =>
    if h : a = b then isTrue (by rw [h])
    else isFalse (by intro he; cases he; exact h rfl)
  | Except.error a, Except.error b =>
    if h : a = b then isTrue (by rw [h])
    else isFalse (by intro he; cases he; exact h rfl)
  | Except.ok _, Except.error _ => isFalse (by intro he; cases he)
  | Except.error _, Except.ok _ => isFalse (by intro he; cases he)

/-- The table-selection loop (source lines 93-107): the first table whose
`<thead>` headers — or, lacking a `<thead>`, whose first-row cells —
contain exactly `"Port"` and `"VLSFO $/mt"` as elements. -/
def tableMatches (t : HtmlTable) : Bool :=
  match t.thead with
  | some hs => decide (lit "Port" ∈ hs) && decide (lit "VLSFO $/mt" ∈ hs)
  | none =>
    match t.firstRow with
    | some cs => decide (lit "Port" ∈ cs) && decide (lit "VLSFO $/mt" ∈ cs)
    | none => false

def findPriceTable (ts : List HtmlTable) : Option HtmlTable := ts.find? tableMatches

/-- The header row re-read at source line 114 (thead `<th>`s if present,
else the first `<tr>`'s cells). -/
def headerCellsOf (t : HtmlTable) : List PyStr :=
  match t.thead with
  | some hs => hs
  | none => t.firstRow.getD []

/-- `header_indices` after the enumeration loop (lines 115-124): for each
cell, the first matching branch of the `if`/`elif` chain wins, and a later
cell overwrites an earlier index of the same key. -/
structure HeaderIdx : Type where
  vlsfo : Option ℕ
  lsmgo : Option ℕ
  hsfo : Option ℕ
  port : Option ℕ
deriving DecidableEq, Repr

def buildIndices (cells : List PyStr) : HeaderIdx :=
  (List.enum cells).foldl
    (fun a p =>
      if strHas (lit "VLSFO") p.2 then { a with vlsfo := some p.1 }
      else if strHas (lit "MGO") p.2 then { a with lsmgo := some p.1 }
      else if strHas (lit "IFO380") p.2 || strHas (lit "HSFO") p.2 then { a with hsfo := some p.1 }
      else if strHas (lit "Port") p.2 then { a with port := some p.1 }
      else a)
    ⟨none, none, none, none⟩

/-- The Singapore-row scan (lines 130-135): for each `<tbody>` row, skip it
if it has no `<td>` cells, otherwise index the `Port` cell — Python raises
`IndexError` when the row is shorter than the `Port` column index — and
compare it with `"Singapore"`. -/
def findSingaporeRow (rows : List (List PyStr)) (portIdx : ℕ) :
    Except PyExn (Option (List PyStr)) :=
  match rows with
  | [] => Except.ok none
  | r :: rs =>
    if r = [] then findSingaporeRow rs portIdx
    else
      match r.get? portIdx with
      | none => Except.error PyExn.indexError
      | some cell =>
        if cell = lit "Singapore" then Except.ok (some r)
        else findSingaporeRow rs portIdx

/-- `.replace(',', '')`. -/
def stripCommas (s : PyStr) : PyStr := s.filter (fun c => c ≠ ',')

def charIsDigit (c : Char) : Bool := '0' ≤ c && c ≤ '9'

def digitsVal (l : PyStr) : ℕ := l.foldl (fun a c => a * 10 + (c.toNat - 48)) 0

/-- Modelled from Python `float(str)` restricted to plain decimal literals
(optional sign, digits with at most one dot, at least one digit; no
exponent, `inf`, `nan` or surrounding whitespace, which the scraped price
cells never contain): integer digits, fraction digits, fraction length. -/
def parseUnsignedParts (t : PyStr) : Option (ℕ × ℕ × ℕ) :=
  let ip := t.takeWhile (fun c => c ≠ '.')
  let rest := t.drop ip.length
  let fp := rest.tail
  if ip.all charIsDigit && fp.all charIsDigit && !(ip.isEmpty && fp.isEmpty) then
    some (digitsVal ip, digitsVal fp, fp.length)
  else none

/-- Python `float(s)` (decimal literals), `none` = `ValueError`. -/
def pyFloat (s : PyStr) : Option ℚ :=
  if s.head? = some '-' then
    (parseUnsignedParts s.tail).map
      (fun p => mkRat (-((p.1 : ℤ) * (10 : ℤ) ^ p.2.2 + (p.2.1 : ℤ))) (10 ^ p.2.2))
  else if s.head? = some '+' then
    (parseUnsignedParts s.tail).map
      (fun p => mkRat ((p.1 : ℤ) * (10 : ℤ) ^ p.2.2 + (p.2.1 : ℤ)) (10 ^ p.2.2))
  else
    (parseUnsignedParts s).map
      (fun p => mkRat ((p.1 : ℤ) * (10 : ℤ) ^ p.2.2 + (p.2.1 : ℤ)) (10 ^ p.2.2))

example : pyFloat (lit "500.50") = some (mkRat 50050 100) := by decide

example : pyFloat (lit "1,000") = none := by decide

example : pyFloat (stripCommas (lit "1,000")) = some 1000 := by decide

/-- The three per-fuel series dicts of `bunker_data`. -/
structure BunkerData : Type where
  vlsfo : Dict
  lsmgo : Dict
  hsfo : Dict
deriving DecidableEq, Repr

/-- The initial `bunker_data`: every fuel maps every report date to `"N/A"`. -/
def initBunker (today : ℤ) : BunkerData :=
  let m := initSeries (get_past_business_dates today 3)
  ⟨m, m, m⟩

/-- A normal return of `fetch_singapore_bunker_prices`: the data and the
printed diagnostics. -/
structure BunkerResult : Type where
  data : BunkerData
  log : List PyStr
deriving DecidableEq, Repr

/-- The `try` block at lines 143-153: extract the three cell strings (an
`IndexError` here is caught), then convert and assign them one at a time
(a `ValueError` mid-way is caught, keeping the assignments already made). -/
def tryParseRow (cells : List PyStr) (vi mi hi : ℕ) (bunker : BunkerData) (today : ℤ) :
    BunkerResult :=
  let latest := (get_past_business_dates today 1).getD 0 0
  let parseMsg := lit "Error parsing bunker prices from Ship and Bunker for Singapore."
  match cells.get? vi, cells.get? mi, cells.get? hi with
  | some sv, some sm, some sh =>
    (match pyFloat (stripCommas sv) with
     | none => ⟨bunker, [parseMsg]⟩
     | some qv =>
       let b1 := { bunker with vlsfo := dictSet bunker.vlsfo latest (Val.num qv) }
       match pyFloat (stripCommas sm) with
       | none => ⟨b1, [parseMsg]⟩
       | some qm =>
         let b2 := { b1 with lsmgo := dictSet b1.lsmgo latest (Val.num qm) }
         match pyFloat (stripCommas sh) with
         | none => ⟨b2, [parseMsg]⟩
         | some qh => ⟨{ b2 with hsfo := dictSet b2.hsfo latest (Val.num qh) }, []⟩)
  | _, _, _ => ⟨bunker, [parseMsg]⟩

/-- Lines 130-155 once the header indices are all present:
`price_table.find('tbody')` is `None` when the table has no `<tbody>`
element, and the code calls `.find_all('tr')` on it — an uncaught
`AttributeError`. -/
def afterHeaders (t : HtmlTable) (vi mi hi pi : ℕ) (bunker : BunkerData) (today : ℤ) :
    Except PyExn BunkerResult :=
  match t.tbodyRows with
  | none => Except.error PyExn.attributeError
  | some rows =>
    match findSingaporeRow rows pi with
    | Except.error e => Except.error e
    | Except.ok none =>
      Except.ok ⟨bunker, [lit "Could not find Singapore row in the prices table."]⟩
    | Except.ok (some cells) => Except.ok (tryParseRow cells vi mi hi bunker today)

/-- `fetch_singapore_bunker_prices()`, as a function of the fetched page
(`none` = the request raised, caught at line 88) and the run's date. -/
def fetch_singapore_bunker_prices (page? : Option Page) (today : ℤ) :
    Except PyExn BunkerResult :=
  let bunker := initBunker today
  match page? with
  | none => Except.ok ⟨bunker, [lit "Failed to fetch Ship and Bunker data."]⟩
  | some page =>
    match findPriceTable page.tables with
    | none => Except.ok ⟨bunker, [lit "Could not find the main prices table on Ship and Bunker."]⟩
    | some t =>
      let idx := buildIndices (headerCellsOf t)
      match idx.port, idx.vlsfo, idx.lsmgo, idx.hsfo with
      | some pi, some vi, some mi, some hi => afterHeaders t vi mi hi pi bunker today
      | _, _, _, _ =>
        Except.ok ⟨bunker, [lit "Could not find all required price column headers."]⟩

/-! ## Report formatter and notifier -/

/-- Abstract injective rendering of a report date (the program renders the
`YYYY-MM-DD` string; only its width-independence and identity matter to the
claims). -/
def dateStr (d : ℤ) : PyStr :=
  (if d < 0 then ['-'] else []) ++ natToStr d.natAbs

def labelWTI : PyStr := lit "WTI crude price"
def labelBrent : PyStr := lit "Brent crude price"
def labelVLSFO : PyStr := lit "Singapore VLSFO bunker price"
def labelLSMGO : PyStr := lit "Singapore LSMGO bunker price"
def labelHSFO : PyStr := lit "Singapore HSFO bunker price"

/-- The five labelled rows of the report, in source order. -/
def reportRows (wti brent : Dict) (bunker : BunkerData) : List (PyStr × Dict) :=
  [(labelWTI, wti), (labelBrent, brent), (labelVLSFO, bunker.vlsfo),
   (labelLSMGO, bunker.lsmgo), (labelHSFO, bunker.hsfo)]

/-- `format_email_content(dates, wti, brent, bunker)`: sorts the dates,
builds the header from `report_dates_ordered[0..2]` (an `IndexError` when
fewer than three dates are supplied), a dash separator, and the five rows. -/
def format_email_content (dates : List ℤ) (wti brent : Dict) (bunker : BunkerData) :
    Except PyExn PyStr :=
  let ds := List.insertionSort (fun a b => a ≤ b) dates
  match ds with
  | d0 :: d1 :: d2 :: _ =>
    let header := ljust 35 [] ++ lit " | " ++ ljust 6 (dateStr d0) ++ lit " | " ++
      ljust 6 (dateStr d1) ++ lit " | " ++ ljust 6 (dateStr d2)
    Except.ok (List.intercalate ['\n']
      (header :: List.replicate header.length '-' ::
        (reportRows wti brent bunker).map (fun r => format_row r.1 r.2 ds)))
  | _ => Except.error PyExn.indexError

/-- SMTP transport outcomes: success, or an exception raised inside the
`with smtplib.SMTP(...)` block (authentication errors included). -/
inductive SmtpOutcome : Type where
  | success : SmtpOutcome
  | authError (msg : PyStr) : SmtpOutcome
  | otherError (msg : PyStr) : SmtpOutcome
deriving DecidableEq, Repr

/-- `send_email(subject, body)` as a function of the transport outcome; the
`try`/`except Exception` swallows every transport failure, so the function
always returns, and these are the lines it prints. -/
def send_email (outcome : SmtpOutcome) : List PyStr :=
  match outcome with
  | SmtpOutcome.success => [lit "Email sent successfully."]
  | SmtpOutcome.authError m => [lit "Failed to send email: " ++ m]
  | SmtpOutcome.otherError m => [lit "Failed to send email: " ++ m]

/-- The external world of one run. -/
structure Env : Type where
  today : ℤ
  wtiResp : CrudeResponse
  brentResp : CrudeResponse
  bunkerPage : Option Page
  smtp : SmtpOutcome
deriving DecidableEq, Repr

/-- `main()`: the ordered console output of a run (diagnostics, then
`print(email_body)`, then `send_email`'s print), or the uncaught exception
that aborted it. -/
def mainRun (env : Env) : Except PyExn (List PyStr) :=
  let dates := get_past_business_dates env.today 3
  let wti := fetch_crude_price env.wtiResp dates
  let brent := fetch_crude_price env.brentResp dates
  match fetch_singapore_bunker_prices env.bunkerPage env.today with
  | Except.error e => Except.error e
  | Except.ok bres =>
    match format_email_content dates wti.1 brent.1 bres.data with
    | Except.error e => Except.error e
    | Except.ok body =>
      Except.ok (wti.2 ++ brent.2 ++ bres.log ++ body :: send_email env.smtp)

/-! ## Helper definitions used by the lemmas -/

/-- The value the assignment loop leaves at position `i`. -/
def assignVal (latest : List ℚ) (i : ℕ) : Val :=
  if i < latest.length then Val.num (round2 (latest.getD i 0)) else Val.na

/-- Weekend slack: extra backward steps needed before the next weekday. -/
def wsl (d : ℤ) : ℕ := if weekday d = 5 then 1 else if weekday d = 6 then 2 else 0

/-- The most recent business day at or before `d` (what the loop collects
first). -/
def fw (d : ℤ) : ℤ :=
  if weekday d ≤ 4 then d else if weekday d = 5 then d - 1 else d - 2

/-! ## Concrete run inputs used by the closed checks -/

/-- A successful EIA response with three valid and one non-numeric
observation. -/
def respC2 : CrudeResponse :=
  ⟨200, [⟨0, some 1⟩, ⟨1, none⟩, ⟨2, some 2⟩, ⟨3, some 3⟩], true, true⟩

/-- A successful EIA response with only two valid observations. -/
def respC3 : CrudeResponse := ⟨200, [⟨0, some 4⟩, ⟨1, some 5⟩], true, true⟩

/-- An HTTP 500 EIA response. -/
def respC4 : CrudeResponse := ⟨500, [], true, true⟩

/-- The WTI series of the end-to-end scenario: days 20253..20255 are
2025-06-14 .. 2025-06-16, mapped to 70.12, the sentinel, and 71.00. -/
def wtiC10 : Dict :=
  [(20253, Val.num (mkRat 7012 100)), (20254, Val.na), (20255, Val.num 71)]

/-- A run on a Wednesday whose fetches fail and whose SMTP login raises an
authentication error. -/
def envC8 : Env := ⟨6, respC4, respC4, none, SmtpOutcome.authError (lit "535 auth failed")⟩

/-- A bunker page whose only table has the full expected header row but no
`<tbody>` element (and hence no Singapore row anywhere on the page). -/
def pageC1 : Page :=
  ⟨[⟨some [lit "Port", lit "VLSFO $/mt", lit "MGO $/mt", lit "HSFO $/mt"],
     some [lit "Port", lit "VLSFO $/mt", lit "MGO $/mt", lit "HSFO $/mt"],
     none⟩]⟩

/-- A bunker page on which the extraction fully succeeds. -/
def pageC9 : Page :=
  ⟨[⟨some [lit "Port", lit "VLSFO $/mt", lit "MGO $/mt", lit "HSFO $/mt"],
     some [lit "Port", lit "VLSFO $/mt", lit "MGO $/mt", lit "HSFO $/mt"],
     some [[lit "Rotterdam", lit "450", lit "550", lit "380"],
           [lit "Singapore", lit "500.50", lit "1,650", lit "400"]]⟩]⟩

/-- The result `fetch_singapore_bunker_prices` produces on `pageC9` on a
Wednesday run (day 6): report dates 4, 5, 6, with the scraped snapshot on
the most recent date only. -/
def resC9 : BunkerResult :=
  ⟨⟨[(4, Val.na), (5, Val.na), (6, Val.num (mkRat 50050 100))],
    [(4, Val.na), (5, Val.na), (6, Val.num 1650)],
    [(4, Val.na), (5, Val.na), (6, Val.num 400)]⟩, []⟩

/-! ## Dictionary lemmas -/

theorem dictGet_nil (k : ℤ) : dictGet [] k = Val.na := rfl

theorem dictGet_cons (a : ℤ × Val) (m : Dict) (k : ℤ) :
    dictGet (a :: m) k = if a.1 = k then a.2 else dictGet m k := by
  by_cases h : a.1 = k
  · simp [dictGet, List.find?_cons_of_pos, h]
  · simp [dictGet, List.find?_cons_of_neg, h]

theorem dictGet_of_all_na (m : Dict) (k : ℤ) (h : ∀ p ∈ m, p.2 = Val.na) :
    dictGet m k = Val.na := by
  induction m with
  | nil => rfl
  | cons a m ih =>
    rw [dictGet_cons]
    by_cases ha : a.1 = k
    · simp [ha, h a (List.mem_cons_self a m)]
    · simp [ha, ih (fun p hp => h p (List.mem_cons_of_mem a hp))]

theorem dictSet_fresh (m : Dict) (k : ℤ) (v : Val) (h : k ∉ m.map Prod.fst) :
    dictSet m k v = m ++ [(k, v)] := by
  simp [dictSet, h]

theorem dictSet_mid (xs ys : Dict) (k : ℤ) (v₀ v : Val)
    (hx : k ∉ xs.map Prod.fst) (hy : k ∉ ys.map Prod.fst) :
    dictSet (xs ++ (k, v₀) :: ys) k v = xs ++ (k, v) :: ys := by
  have hmem : k ∈ (xs ++ (k, v₀) :: ys).map Prod.fst := by simp
  have hxid : ∀ p ∈ xs, (if p.1 = k then ((k, v) : ℤ × Val) else p) = p := by
    intro p hp
    have : p.1 ≠ k := fun he => hx (he ▸ List.mem_map_of_mem Prod.fst hp)
    simp [this]
  have hyid : ∀ p ∈ ys, (if p.1 = k then ((k, v) : ℤ × Val) else p) = p := by
    intro p hp
    have : p.1 ≠ k := fun he => hy (he ▸ List.mem_map_of_mem Prod.fst hp)
    simp [this]
  simp only [dictSet, hmem, if_pos, List.map_append, List.map_cons]
  rw [List.map_congr_left hxid, List.map_congr_left hyid]
  simp

theorem mem_dictSet (m : Dict) (k : ℤ) (v : Val) (p : ℤ × Val) (hp : p ∈ dictSet m k v) :
    p = (k, v) ∨ p ∈ m := by
  unfold dictSet at hp
  by_cases h : k ∈ m.map Prod.fst
  · rw [if_pos h] at hp
    obtain ⟨q, hq, he⟩ := List.mem_map.mp hp
    by_cases hqk : q.1 = k
    · simp [hqk] at he; exact Or.inl he.symm
    · simp [hqk] at he; exact Or.inr (he ▸ hq)
  · rw [if_neg h] at hp
    rcases List.mem_append.mp hp with h1 | h1
    · exact Or.inr h1
    · simp at h1; exact Or.inl (by cases h1; rfl)

theorem dictGet_mapUpd_self (m : Dict) (k : ℤ) (v : Val) (h : k ∈ m.map Prod.fst) :
    dictGet (m.map (fun p => if p.1 = k then (k, v) else p)) k = v := by
  induction m with
  | nil => simp at h
  | cons a m ih =>
    by_cases ha : a.1 = k
    · rw [List.map_cons, if_pos ha, dictGet_cons, if_pos rfl]
    · rw [List.map_cons, if_neg ha, dictGet_cons, if_neg ha]
      refine ih ?_
      rcases List.mem_map.mp h with ⟨q, hq, he⟩
      rcases List.mem_cons.mp hq with h1 | h1
      · exact absurd (h1 ▸ he) ha
      · exact List.mem_map.mpr ⟨q, h1, he⟩

theorem dictGet_mapUpd_ne (m : Dict) (k k' : ℤ) (v : Val) (hne : k' ≠ k) :
    dictGet (m.map (fun p => if p.1 = k then (k, v) else p)) k' = dictGet m k' := by
  induction m with
  | nil => rfl
  | cons a m ih =>
    by_cases ha : a.1 = k
    · rw [List.map_cons, if_pos ha, dictGet_cons, dictGet_cons, ih]
      have h1 : ¬(a.1 = k') := fun he => hne (ha.symm.trans he).symm
      have h2 : ¬(k = k') := fun he => hne he.symm
      simp [h1, h2]
    · rw [List.map_cons, if_neg ha, dictGet_cons, dictGet_cons, ih]

theorem dictGet_append_singleton_self (m : Dict) (k : ℤ) (v : Val) (h : k ∉ m.map Prod.fst) :
    dictGet (m ++ [(k, v)]) k = v := by
  induction m with
  | nil => rw [List.nil_append, dictGet_cons, if_pos rfl]
  | cons a m ih =>
    have ha : a.1 ≠ k := fun he => h (by simp [he])
    rw [List.cons_append, dictGet_cons, if_neg ha]
    exact ih (fun hk => h (by simp [hk]))

theorem dictGet_append_singleton_ne (m : Dict) (k k' : ℤ) (v : Val) (hne : k' ≠ k) :
    dictGet (m ++ [(k, v)]) k' = dictGet m k' := by
  induction m with
  | nil => rw [List.nil_append, dictGet_cons, dictGet_nil, if_neg (fun he : k = k' => hne he.symm)]
  | cons a m ih => rw [List.cons_append, dictGet_cons, dictGet_cons, ih]

theorem dictGet_dictSet_self (m : Dict) (k : ℤ) (v : Val) :
    dictGet (dictSet m k v) k = v := by
  unfold dictSet
  by_cases h : k ∈ m.map Prod.fst
  · rw [if_pos h]; exact dictGet_mapUpd_self m k v h
  · rw [if_neg h]; exact dictGet_append_singleton_self m k v h

theorem dictGet_dictSet_ne (m : Dict) (k k' : ℤ) (v : Val) (hne : k' ≠ k) :
    dictGet (dictSet m k v) k' = dictGet m k' := by
  unfold dictSet
  by_cases h : k ∈ m.map Prod.fst
  · rw [if_pos h]; exact dictGet_mapUpd_ne m k k' v hne
  · rw [if_neg h]; exact dictGet_append_singleton_ne m k k' v hne

/-- On a fresh key list with no duplicates, the initialisation loop builds
exactly the all-sentinel association list, in date order. -/
theorem initSeries_eq (dates : List ℤ) (hnd : dates.Nodup) :
    initSeries dates = dates.map (fun d => (d, Val.na)) := by
  suffices h : ∀ (pre : Dict) (ds : List ℤ), ds.Nodup →
      (∀ d ∈ ds, d ∉ pre.map Prod.fst) →
      ds.foldl (fun m d => dictSet m d Val.na) pre = pre ++ ds.map (fun d => (d, Val.na)) by
    simpa using h [] dates hnd (by simp)
  intro pre ds
  induction ds generalizing pre with
  | nil => simp
  | cons d ds ih =>
    intro hnd hfresh
    rw [List.foldl_cons, dictSet_fresh pre d Val.na (hfresh d (List.mem_cons_self d ds))]
    rw [ih (pre ++ [(d, Val.na)]) (List.Nodup.of_cons hnd) ?_]
    · simp
    · intro d' hd'
      simp only [List.map_append, List.mem_append]
      rintro (h1 | h1)
      · exact hfresh d' (List.mem_cons_of_mem d hd') h1
      · simp at h1
        rw [h1] at hd'
        exact (List.nodup_cons.mp hnd).1 hd'

/-! ## Crude fetcher lemmas -/

theorem crudeAssign_loop (latest : List ℚ) :
    ∀ (ds : List ℤ) (pre : Dict) (k : ℕ), ds.Nodup →
      (∀ d ∈ ds, d ∉ pre.map Prod.fst) →
      (List.enumFrom k ds).foldl
        (fun m p =>
          if p.1 < latest.length then dictSet m p.2 (Val.num (round2 (latest.getD p.1 0)))
          else m)
        (pre ++ ds.map (fun x => (x, Val.na)))
      = pre ++ (List.enumFrom k ds).map (fun p => (p.2, assignVal latest p.1)) := by
  intro ds
  induction ds with
  | nil => intro pre k _ _; simp
  | cons d ds ih =>
    intro pre k hnd hdisj
    have hd_pre : d ∉ pre.map Prod.fst := hdisj d (List.mem_cons_self d ds)
    have hd_ds : d ∉ (ds.map (fun x => (x, Val.na))).map Prod.fst := by
      simp only [List.map_map]
      simpa using (List.nodup_cons.mp hnd).1
    rw [List.enumFrom_cons, List.map_cons, List.foldl_cons, List.map_cons]
    dsimp only
    have hstep :
        (if k < latest.length then
          dictSet (pre ++ (d, Val.na) :: ds.map fun x => (x, Val.na)) d
            (Val.num (round2 (latest.getD k 0)))
         else pre ++ (d, Val.na) :: ds.map fun x => (x, Val.na))
        = pre ++ (d, assignVal latest k) :: ds.map fun x => (x, Val.na) := by
      unfold assignVal
      by_cases hk : k < latest.length
      · rw [if_pos hk, if_pos hk, dictSet_mid _ _ _ _ _ hd_pre hd_ds]
      · rw [if_neg hk, if_neg hk]
    rw [hstep]
    have hassoc : pre ++ (d, assignVal latest k) :: ds.map (fun x => (x, Val.na))
        = (pre ++ [(d, assignVal latest k)]) ++ ds.map (fun x => (x, Val.na)) := by simp
    rw [hassoc, ih (pre ++ [(d, assignVal latest k)]) (k + 1) (List.Nodup.of_cons hnd) ?_]
    · simp
    · intro d' hd'
      simp only [List.map_append, List.mem_append]
      rintro (h1 | h1)
      · exact hdisj d' (List.mem_cons_of_mem d hd') h1
      · simp at h1
        rw [h1] at hd'
        exact (List.nodup_cons.mp hnd).1 hd'

theorem crudeAssign_eq (latest : List ℚ) (dates : List ℤ) (hnd : dates.Nodup) :
    crudeAssign latest (initSeries dates) dates
      = (List.enum dates).map (fun p => (p.2, assignVal latest p.1)) := by
  unfold crudeAssign
  rw [initSeries_eq dates hnd, List.enum_eq_enumFrom]
  simpa using crudeAssign_loop latest dates [] 0 hnd (by simp)

theorem round2_mul_hundred (q : ℚ) : round2 q * 100 = (roundHalfEven100 q : ℚ) := by
  unfold round2; field_simp

theorem round2_den (q : ℚ) : (round2 q * 100).den = 1 := by
  rw [round2_mul_hundred]; exact Rat.den_intCast _

/-! ## Date window lemmas -/

theorem weekday_bounds (d : ℤ) : 0 ≤ weekday d ∧ weekday d < 7 := by
  unfold weekday; omega

theorem weekday_pred_eq (d : ℤ) :
    weekday (d - 1) = if weekday d = 0 then 6 else weekday d - 1 := by
  unfold weekday
  split <;> omega

theorem collectBD_zero (fuel : ℕ) (d : ℤ) : collectBD fuel d 0 = [] := by
  cases fuel <;> rfl

/-- Fuel `3 * n + wsl d` suffices for the loop to collect all `n` dates. -/
theorem collectBD_length (fuel : ℕ) :
    ∀ (d : ℤ) (n : ℕ), 3 * n + wsl d ≤ fuel → (collectBD fuel d n).length = n := by
  induction fuel with
  | zero =>
    intro d n h
    have hn : n = 0 := by omega
    subst hn; rfl
  | succ fuel ih =>
    intro d n h
    cases n with
    | zero => rfl
    | succ n =>
      show (if weekday d ≤ 4 then d :: collectBD fuel (d - 1) n
            else collectBD fuel (d - 1) (n + 1)).length = n + 1
      have hb := weekday_bounds d
      by_cases hw : weekday d ≤ 4
      · rw [if_pos hw, List.length_cons, ih (d - 1) n ?_]
        have h0 : wsl d = 0 := by
          unfold wsl; rw [if_neg (by omega), if_neg (by omega)]
        have h2 : wsl (d - 1) ≤ 2 := by unfold wsl; split_ifs <;> omega
        omega
      · rw [if_neg hw]
        refine ih (d - 1) (n + 1) ?_
        have hp := weekday_pred_eq d
        rw [if_neg (by omega)] at hp
        rcases (by omega : weekday d = 5 ∨ weekday d = 6) with h5 | h6
        · have ha : wsl d = 1 := by unfold wsl; rw [if_pos h5]
          have hb' : wsl (d - 1) = 0 := by
            unfold wsl; rw [if_neg (by omega), if_neg (by omega)]
          omega
        · have ha : wsl d = 2 := by unfold wsl; rw [if_neg (by omega), if_pos (by omega)]
          have hb' : wsl (d - 1) = 1 := by unfold wsl; rw [if_pos (by omega)]
          omega

theorem collectBD_mem_le (fuel : ℕ) :
    ∀ (d : ℤ) (n : ℕ) (x : ℤ), x ∈ collectBD fuel d n → x ≤ d := by
  induction fuel with
  | zero => intro d n x hx; simp [collectBD] at hx
  | succ fuel ih =>
    intro d n x hx
    cases n with
    | zero => simp [collectBD] at hx
    | succ n =>
      rw [show collectBD (fuel + 1) d (n + 1) =
          (if weekday d ≤ 4 then d :: collectBD fuel (d - 1) n
           else collectBD fuel (d - 1) (n + 1)) from rfl] at hx
      by_cases hw : weekday d ≤ 4
      · rw [if_pos hw] at hx
        rcases List.mem_cons.mp hx with h1 | h1
        · omega
        · have := ih (d - 1) n x h1; omega
      · rw [if_neg hw] at hx
        have := ih (d - 1) (n + 1) x hx; omega

theorem collectBD_mem_weekday (fuel : ℕ) :
    ∀ (d : ℤ) (n : ℕ) (x : ℤ), x ∈ collectBD fuel d n → weekday x ≤ 4 := by
  induction fuel with
  | zero => intro d n x hx; simp [collectBD] at hx
  | succ fuel ih =>
    intro d n x hx
    cases n with
    | zero => simp [collectBD] at hx
    | succ n =>
      rw [show collectBD (fuel + 1) d (n + 1) =
          (if weekday d ≤ 4 then d :: collectBD fuel (d - 1) n
           else collectBD fuel (d - 1) (n + 1)) from rfl] at hx
      by_cases hw : weekday d ≤ 4
      · rw [if_pos hw] at hx
        rcases List.mem_cons.mp hx with h1 | h1
        · rw [h1]; exact hw
        · exact ih (d - 1) n x h1
      · rw [if_neg hw] at hx
        exact ih (d - 1) (n + 1) x hx

theorem collectBD_pairwise (fuel : ℕ) :
    ∀ (d : ℤ) (n : ℕ), (collectBD fuel d n).Pairwise (fun a b => b < a) := by
  induction fuel with
  | zero => intro d n; exact List.Pairwise.nil
  | succ fuel ih =>
    intro d n
    cases n with
    | zero => exact List.Pairwise.nil
    | succ n =>
      rw [show collectBD (fuel + 1) d (n + 1) =
          (if weekday d ≤ 4 then d :: collectBD fuel (d - 1) n
           else collectBD fuel (d - 1) (n + 1)) from rfl]
      by_cases hw : weekday d ≤ 4
      · rw [if_pos hw]
        refine List.Pairwise.cons ?_ (ih (d - 1) n)
        intro x hx
        have := collectBD_mem_le fuel (d - 1) n x hx; omega
      · rw [if_neg hw]; exact ih (d - 1) (n + 1)

theorem collectBD_nodup (fuel : ℕ) (d : ℤ) (n : ℕ) : (collectBD fuel d n).Nodup :=
  (collectBD_pairwise fuel d n).imp (fun h => ne_of_gt h)

theorem gpbd_perm (today : ℤ) (days : ℕ) :
    List.Perm (get_past_business_dates today days) (collectBD (3 * days + 3) today days) :=
  List.perm_insertionSort _ _

theorem gpbd_length (today : ℤ) (days : ℕ) :
    (get_past_business_dates today days).length = days := by
  rw [(gpbd_perm today days).length_eq]
  refine collectBD_length _ today days ?_
  have : wsl today ≤ 2 := by unfold wsl; split_ifs <;> omega
  omega

theorem gpbd_nodup (today : ℤ) (days : ℕ) : (get_past_business_dates today days).Nodup :=
  ((gpbd_perm today days).nodup_iff).mpr (collectBD_nodup _ today days)

theorem gpbd_sorted_le (today : ℤ) (days : ℕ) :
    (get_past_business_dates today days).Sorted (fun a b => a ≤ b) :=
  List.sorted_insertionSort _ _

theorem gpbd_sorted_lt (today : ℤ) (days : ℕ) :
    (get_past_business_dates today days).Sorted (fun a b => a < b) :=
  List.Sorted.lt_of_le (gpbd_sorted_le today days) (gpbd_nodup today days)

theorem gpbd_mem_le (today : ℤ) (days : ℕ) (x : ℤ)
    (hx : x ∈ get_past_business_dates today days) : x ≤ today :=
  collectBD_mem_le _ today days x ((gpbd_perm today days).mem_iff.mp hx)

theorem gpbd_mem_weekday (today : ℤ) (days : ℕ) (x : ℤ)
    (hx : x ∈ get_past_business_dates today days) : weekday x ≤ 4 :=
  collectBD_mem_weekday _ today days x ((gpbd_perm today days).mem_iff.mp hx)

/-- With three spare fuel steps, the loop's first collected date is `fw d`. -/
theorem collectBD_head (f : ℕ) (d : ℤ) (n : ℕ) :
    ∃ f', collectBD (f + 3) d (n + 1) = fw d :: collectBD f' (fw d - 1) n := by
  have hb := weekday_bounds d
  by_cases hw : weekday d ≤ 4
  · refine ⟨f + 2, ?_⟩
    rw [show collectBD (f + 3) d (n + 1) =
        (if weekday d ≤ 4 then d :: collectBD (f + 2) (d - 1) n
         else collectBD (f + 2) (d - 1) (n + 1)) from rfl, if_pos hw]
    rw [show fw d = d from by unfold fw; rw [if_pos hw]]
  · have hp := weekday_pred_eq d
    rw [if_neg (by omega)] at hp
    rcases (by omega : weekday d = 5 ∨ weekday d = 6) with h5 | h6
    · refine ⟨f + 1, ?_⟩
      rw [show collectBD (f + 3) d (n + 1) =
          (if weekday d ≤ 4 then d :: collectBD (f + 2) (d - 1) n
           else collectBD (f + 2) (d - 1) (n + 1)) from rfl, if_neg hw]
      rw [show collectBD (f + 2) (d - 1) (n + 1) =
          (if weekday (d - 1) ≤ 4 then (d - 1) :: collectBD (f + 1) (d - 1 - 1) n
           else collectBD (f + 1) (d - 1 - 1) (n + 1)) from rfl, if_pos (by omega)]
      rw [show fw d = d - 1 from by unfold fw; rw [if_neg hw, if_pos h5]]
    · refine ⟨f, ?_⟩
      have hp2 := weekday_pred_eq (d - 1)
      rw [if_neg (by omega)] at hp2
      rw [show collectBD (f + 3) d (n + 1) =
          (if weekday d ≤ 4 then d :: collectBD (f + 2) (d - 1) n
           else collectBD (f + 2) (d - 1) (n + 1)) from rfl, if_neg hw]
      rw [show collectBD (f + 2) (d - 1) (n + 1) =
          (if weekday (d - 1) ≤ 4 then (d - 1) :: collectBD (f + 1) (d - 1 - 1) n
           else collectBD (f + 1) (d - 1 - 1) (n + 1)) from rfl, if_neg (by omega)]
      rw [show collectBD (f + 1) (d - 1 - 1) (n + 1) =
          (if weekday (d - 1 - 1) ≤ 4 then (d - 1 - 1) :: collectBD f (d - 1 - 1 - 1) n
           else collectBD f (d - 1 - 1 - 1) (n + 1)) from rfl, if_pos (by omega)]
      rw [show fw d = d - 2 from by unfold fw; rw [if_neg hw, if_neg (by omega)]]
      norm_num
      refine ⟨by ring, ?_⟩
      rw [show d - 1 - 1 - 1 = d - 2 - 1 from by ring]

/-- `get_past_business_dates(days=1)` is the singleton holding the most
recent business day. -/
theorem gpbd_one (today : ℤ) : get_past_business_dates today 1 = [fw today] := by
  obtain ⟨f', hf⟩ := collectBD_head 3 today 0
  unfold get_past_business_dates
  norm_num at hf ⊢
  rw [hf, collectBD_zero]
  rfl

/-- `fw today` is the greatest element of the three report dates. -/
theorem gpbd_three_max (today : ℤ) :
    fw today ∈ get_past_business_dates today 3 ∧
      ∀ x ∈ get_past_business_dates today 3, x ≤ fw today := by
  obtain ⟨f', hf⟩ := collectBD_head 9 today 2
  have he : collectBD (3 * 3 + 3) today 3 = fw today :: collectBD f' (fw today - 1) 2 := by
    norm_num at hf ⊢; exact hf
  constructor
  · rw [(gpbd_perm today 3).mem_iff, he]; exact List.mem_cons_self _ _
  · intro x hx
    rw [(gpbd_perm today 3).mem_iff, he] at hx
    rcases List.mem_cons.mp hx with h1 | h1
    · omega
    · have := collectBD_mem_le f' (fw today - 1) 2 x h1; omega

theorem initSeries_all_na (dates : List ℤ) (p : ℤ × Val) (hp : p ∈ initSeries dates) :
    p.2 = Val.na := by
  suffices h : ∀ (pre : Dict) (ds : List ℤ), (∀ q ∈ pre, q.2 = Val.na) →
      ∀ q ∈ ds.foldl (fun m d => dictSet m d Val.na) pre, q.2 = Val.na by
    exact h [] dates (by simp) p hp
  intro pre ds
  induction ds generalizing pre with
  | nil => intro hpre q hq; exact hpre q hq
  | cons d ds ih =>
    intro hpre q hq
    refine ih (dictSet pre d Val.na) ?_ q hq
    intro r hr
    rcases mem_dictSet pre d Val.na r hr with h1 | h1
    · rw [h1]
    · exact hpre r h1

/-! ## Mapping the assignment loop onto requested dates -/

theorem enumMap_eq_zip (latest : List ℚ) (dates : List ℤ)
    (hl : latest.length = dates.length) :
    (List.enum dates).map (fun p => (p.2, assignVal latest p.1))
      = dates.zip (latest.map (fun q => Val.num (round2 q))) := by
  apply List.ext_getElem
  · simp [hl]
  · intro i h1 h2
    have hi : i < dates.length := by simpa using h1
    have hil : i < latest.length := by omega
    simp only [List.enum_eq_enumFrom, List.getElem_map, List.getElem_enumFrom,
      List.getElem_zip, Nat.zero_add]
    unfold assignVal
    rw [if_pos hil, List.getD_eq_getElem latest 0 hil]

theorem enumFromMap_na (latest : List ℚ) :
    ∀ (xs : List ℤ) (j : ℕ), latest.length ≤ j →
      (List.enumFrom j xs).map (fun p => (p.2, assignVal latest p.1))
        = xs.map (fun x => (x, Val.na)) := by
  intro xs
  induction xs with
  | nil => intro j _; rfl
  | cons x xs ih =>
    intro j hj
    rw [List.enumFrom_cons, List.map_cons, List.map_cons, ih (j + 1) (by omega)]
    have : assignVal latest j = Val.na := by
      unfold assignVal; rw [if_neg (by omega)]
    rw [this]

theorem enumMap_eq_partial (latest : List ℚ) (dates : List ℤ)
    (hl : latest.length < dates.length) :
    (List.enum dates).map (fun p => (p.2, assignVal latest p.1))
      = (dates.take latest.length).zip (latest.map (fun q => Val.num (round2 q)))
        ++ (dates.drop latest.length).map (fun x => (x, Val.na)) := by
  conv_lhs => rw [← List.take_append_drop latest.length dates]
  rw [List.enum_append, List.map_append]
  congr 1
  · rw [enumMap_eq_zip]
    rw [List.length_take]
    omega
  · rw [List.length_take, enumFromMap_na]
    omega

/-! ## Claim C2 -/

/-- C2: for a successful API response whose data holds at least `N` valid
(numeric) observations, `fetch_crude_price` on `N` requested (distinct)
dates assigns the last `N` valid observations, in order, positionally to
the `N` requested dates, every assigned value being `round(·, 2)` of the
observation — in particular an exact multiple of `1/100`. -/
theorem fetch_crude_tail_fill (resp : CrudeResponse) (dates : List ℤ)
    (h200 : resp.statusCode = 200) (hne : resp.dataRows ≠ [])
    (hper : resp.hasPeriodCol = true) (hval : resp.hasValueCol = true)
    (hnd : dates.Nodup) (hcnt : dates.length ≤ (validValues resp).length) :
    (fetch_crude_price resp dates).1
      = dates.zip ((lastN (validValues resp) dates.length).map
          (fun q => Val.num (round2 q)))
    ∧ ∀ q : ℚ, (round2 q * 100).den = 1 := by
  constructor
  · have hfetch : (fetch_crude_price resp dates).1
        = crudeAssign (lastN (validValues resp) dates.length) (initSeries dates) dates := by
      unfold fetch_crude_price
      rw [if_pos h200, if_neg hne, hper, hval]
      rfl
    rw [hfetch, crudeAssign_eq _ _ hnd, enumMap_eq_zip]
    unfold lastN
    rw [List.length_drop]
    omega
  · exact round2_den

theorem fetch_crude_tail_fill_witness :
    (respC2.statusCode = 200 ∧ respC2.dataRows ≠ [] ∧
      ([10, 11, 12] : List ℤ).Nodup ∧
      ([10, 11, 12] : List ℤ).length ≤ (validValues respC2).length) ∧
    (fetch_crude_price respC2 [10, 11, 12]).1
      = ([10, 11, 12] : List ℤ).zip
          ((lastN (validValues respC2) ([10, 11, 12] : List ℤ).length).map
            (fun q => Val.num (round2 q)))
    ∧ ∀ q : ℚ, (round2 q * 100).den = 1 :=
  ⟨⟨rfl, by decide, by decide, by decide⟩,
   fetch_crude_tail_fill respC2 [10, 11, 12] rfl (by decide) rfl rfl (by decide) (by decide)⟩

/-! ## Claim C3 -/

/-- C3: when the response holds only `k < N` valid observations, the loop
assigns them to the `k` earliest requested dates (the requested dates are
sorted ascending) and leaves the `N - k` most recent dates sentinel. -/
theorem fetch_crude_partial_fill (resp : CrudeResponse) (dates : List ℤ)
    (h200 : resp.statusCode = 200) (hne : resp.dataRows ≠ [])
    (hper : resp.hasPeriodCol = true) (hval : resp.hasValueCol = true)
    (hsort : dates.Sorted (fun a b => a < b))
    (hcnt : (validValues resp).length < dates.length) :
    (fetch_crude_price resp dates).1
      = (dates.take (validValues resp).length).zip
          ((validValues resp).map (fun q => Val.num (round2 q)))
        ++ (dates.drop (validValues resp).length).map (fun x => (x, Val.na)) := by
  have hnd : dates.Nodup := hsort.nodup
  have hlast : lastN (validValues resp) dates.length = validValues resp := by
    unfold lastN
    rw [show (validValues resp).length - dates.length = 0 from by omega, List.drop_zero]
  have hfetch : (fetch_crude_price resp dates).1
      = crudeAssign (validValues resp) (initSeries dates) dates := by
    unfold fetch_crude_price
    rw [if_pos h200, if_neg hne, hper, hval, hlast]
    rfl
  rw [hfetch, crudeAssign_eq _ _ hnd, enumMap_eq_partial _ _ hcnt]

theorem fetch_crude_partial_fill_witness :
    (respC3.statusCode = 200 ∧ respC3.dataRows ≠ [] ∧
      ([10, 11, 12] : List ℤ).Sorted (fun a b => a < b) ∧
      (validValues respC3).length < ([10, 11, 12] : List ℤ).length) ∧
    (fetch_crude_price respC3 [10, 11, 12]).1
      = (([10, 11, 12] : List ℤ).take (validValues respC3).length).zip
          ((validValues respC3).map (fun q => Val.num (round2 q)))
        ++ (([10, 11, 12] : List ℤ).drop (validValues respC3).length).map
            (fun x => (x, Val.na)) :=
  ⟨⟨rfl, by decide, by decide, by decide⟩,
   fetch_crude_partial_fill respC3 [10, 11, 12] rfl (by decide) rfl rfl (by decide) (by decide)⟩

/-! ## Claim C5 -/

/-- C5: for every `N ≥ 1` and every current date, `get_past_business_dates`
returns exactly `N` distinct dates in strictly increasing order, none a
Saturday (weekday 5) or Sunday (weekday 6), all at or before today. -/
theorem gpbd_window_props (today : ℤ) (n : ℕ) (_hn : 1 ≤ n) :
    (get_past_business_dates today n).length = n ∧
    (get_past_business_dates today n).Nodup ∧
    (get_past_business_dates today n).Sorted (fun a b => a < b) ∧
    (∀ d ∈ get_past_business_dates today n, weekday d ≠ 5 ∧ weekday d ≠ 6) ∧
    (∀ d ∈ get_past_business_dates today n, d ≤ today) :=
  ⟨gpbd_length today n, gpbd_nodup today n, gpbd_sorted_lt today n,
   fun d hd => by
     have h1 := gpbd_mem_weekday today n d hd
     have h2 := weekday_bounds d
     omega,
   fun d hd => gpbd_mem_le today n d hd⟩

theorem gpbd_window_props_witness :
    1 ≤ 3 ∧
    ((get_past_business_dates 20253 3).length = 3 ∧
     (get_past_business_dates 20253 3).Nodup ∧
     (get_past_business_dates 20253 3).Sorted (fun a b => a < b) ∧
     (∀ d ∈ get_past_business_dates 20253 3, weekday d ≠ 5 ∧ weekday d ≠ 6) ∧
     (∀ d ∈ get_past_business_dates 20253 3, d ≤ 20253)) :=
  ⟨by decide, gpbd_window_props 20253 3 (by decide)⟩

/-! ## Claim C4 -/

/-- C4: on a non-success HTTP status, an empty `data` array, or a payload
lacking the `period`/`value` schema, the returned series maps every
requested date to the sentinel, and the run still reaches the formatting
step (the formatter accepts the sentinel series and produces the report
body). -/
theorem fetch_crude_failure (resp : CrudeResponse) (today : ℤ) (brent : Dict)
    (bk : BunkerData)
    (hfail : resp.statusCode ≠ 200 ∨ resp.dataRows = [] ∨
      resp.hasPeriodCol = false ∨ resp.hasValueCol = false) :
    (fetch_crude_price resp (get_past_business_dates today 3)).1
      = (get_past_business_dates today 3).map (fun d => (d, Val.na))
    ∧ (∀ d : ℤ,
        dictGet (fetch_crude_price resp (get_past_business_dates today 3)).1 d = Val.na)
    ∧ ∃ body, format_email_content (get_past_business_dates today 3)
        (fetch_crude_price resp (get_past_business_dates today 3)).1 brent bk
        = Except.ok body := by
  have hnd := gpbd_nodup today 3
  have hinit : (fetch_crude_price resp (get_past_business_dates today 3)).1
      = (get_past_business_dates today 3).map (fun d => (d, Val.na)) := by
    rw [← initSeries_eq _ hnd]
    unfold fetch_crude_price
    by_cases h200 : resp.statusCode = 200
    · rw [if_pos h200]
      by_cases hrows : resp.dataRows = []
      · rw [if_pos hrows]
      · have hcond : (resp.hasPeriodCol && resp.hasValueCol) = false := by
          rcases hfail with h | h | h | h
          · exact absurd h200 h
          · exact absurd h hrows
          · rw [h, Bool.false_and]
          · rw [h, Bool.and_false]
        rw [if_neg hrows, hcond]
        rfl
    · rw [if_neg h200]
  refine ⟨hinit, ?_, ?_⟩
  · intro d
    rw [hinit]
    exact dictGet_of_all_na _ d (by simp)
  · obtain ⟨a, b, c, habc⟩ := List.length_eq_three.mp (gpbd_length today 3)
    unfold format_email_content
    rw [List.Sorted.insertionSort_eq (gpbd_sorted_le today 3), habc]
    exact ⟨_, rfl⟩

theorem fetch_crude_failure_witness :
    (respC4.statusCode ≠ 200 ∨ respC4.dataRows = [] ∨
      respC4.hasPeriodCol = false ∨ respC4.hasValueCol = false) ∧
    ((fetch_crude_price respC4 (get_past_business_dates 6 3)).1
      = (get_past_business_dates 6 3).map (fun d => (d, Val.na))
    ∧ (∀ d : ℤ,
        dictGet (fetch_crude_price respC4 (get_past_business_dates 6 3)).1 d = Val.na)
    ∧ ∃ body, format_email_content (get_past_business_dates 6 3)
        (fetch_crude_price respC4 (get_past_business_dates 6 3)).1 [] ⟨[], [], []⟩
        = Except.ok body) :=
  ⟨Or.inl (by decide), fetch_crude_failure respC4 6 [] ⟨[], [], []⟩ (Or.inl (by decide))⟩

/-! ## Formatter lemmas -/

theorem splitSep_no_bar (l : PyStr) (h : '|' ∉ l) : splitSep l = [l] := by
  induction l with
  | nil => rfl
  | cons c cs ih =>
    rw [splitSep.eq_def]
    split
    · rename_i rest heq
      injection heq with e1 e2
      subst e2
      simp at h
    · rename_i c' cs' hne heq
      injection heq with e1 e2
      subst e1; subst e2
      have hcs : '|' ∉ cs := fun hm => h (List.mem_cons_of_mem _ hm)
      rw [ih hcs]
      rfl
    · rename_i heq
      cases heq

theorem splitSep_sep (p : PyStr) (t : PyStr) (h : '|' ∉ p) :
    splitSep (p ++ ' ' :: '|' :: ' ' :: t) = p :: splitSep t := by
  induction p with
  | nil => rfl
  | cons c p ih =>
    rw [List.cons_append, splitSep.eq_def]
    split
    · rename_i rest heq
      injection heq with e1 e2
      exfalso
      cases p with
      | nil => simp at e2
      | cons c2 p2 =>
        rw [List.cons_append] at e2
        injection e2 with e3 e4
        subst e3
        simp at h
    · rename_i c' cs' hne heq
      injection heq with e1 e2
      subst e1
      rw [← e2, ih (fun hm => h (List.mem_cons_of_mem _ hm))]
      rfl
    · rename_i heq
      cases heq

theorem splitSep_intercalate (parts : List PyStr) :
    parts ≠ [] → (∀ p ∈ parts, '|' ∉ p) →
    splitSep (List.intercalate (lit " | ") parts) = parts := by
  induction parts with
  | nil => intro h _; exact absurd rfl h
  | cons p ps ih =>
    intro _ hall
    cases ps with
    | nil =>
      rw [show List.intercalate (lit " | ") [p] = p from by simp [List.intercalate]]
      exact splitSep_no_bar p (hall p (List.mem_cons_self _ _))
    | cons q r =>
      rw [show List.intercalate (lit " | ") (p :: q :: r)
          = p ++ lit " | " ++ List.intercalate (lit " | ") (q :: r) from by
        simp [List.intercalate]]
      rw [List.append_assoc]
      rw [show lit " | " ++ List.intercalate (lit " | ") (q :: r)
          = ' ' :: '|' :: ' ' :: List.intercalate (lit " | ") (q :: r) from rfl]
      rw [splitSep_sep p _ (hall p (List.mem_cons_self _ _))]
      rw [ih (by simp) (fun x hx => hall x (List.mem_cons_of_mem _ hx))]

theorem digitChar_props (n : ℕ) (hn : n < 10) :
    digitChar n ≠ '.' ∧ digitChar n ≠ '|' ∧ digitChar n ≠ ' ' := by
  interval_cases n <;> exact ⟨by decide, by decide, by decide⟩

theorem natDigitsCore_mem (fuel : ℕ) :
    ∀ (n : ℕ) (acc : List Char) (c : Char), c ∈ natDigitsCore fuel n acc →
      c ∈ acc ∨ ∃ k, k < 10 ∧ c = digitChar k := by
  induction fuel with
  | zero => intro n acc c hc; exact Or.inl hc
  | succ fuel ih =>
    intro n acc c hc
    cases n with
    | zero => exact Or.inl hc
    | succ n =>
      rw [show natDigitsCore (fuel + 1) (n + 1) acc
          = natDigitsCore fuel ((n + 1) / 10) (digitChar ((n + 1) % 10) :: acc) from rfl] at hc
      rcases ih _ _ _ hc with h1 | h1
      · rcases List.mem_cons.mp h1 with h2 | h2
        · exact Or.inr ⟨(n + 1) % 10, Nat.mod_lt _ (by omega), h2⟩
        · exact Or.inl h2
      · exact Or.inr h1

theorem natToStr_mem (n : ℕ) (c : Char) (hc : c ∈ natToStr n) :
    ∃ k, k < 10 ∧ c = digitChar k := by
  unfold natToStr at hc
  split at hc
  · refine ⟨0, by omega, ?_⟩
    rcases List.mem_singleton.mp hc with h
    rw [h]; decide
  · rcases natDigitsCore_mem _ _ _ _ hc with h | h
    · simp at h
    · exact h

/-- Every rendered number has the form `a ++ "." ++ two digit chars` with
no dot in `a`: exactly two decimal places. -/
theorem fmt2_decimals (q : ℚ) :
    ∃ a b1 b2, fmt2 q = a ++ '.' :: [b1, b2] ∧ '.' ∉ a ∧ b1 ≠ '.' ∧ b2 ≠ '.' := by
  unfold fmt2 twoDigits
  refine ⟨(if roundHalfEven100 q < 0 ∨ (roundHalfEven100 q = 0 ∧ q.num < 0) then ['-'] else [])
    ++ natToStr ((roundHalfEven100 q).natAbs / 100),
    digitChar ((roundHalfEven100 q).natAbs % 100 / 10),
    digitChar ((roundHalfEven100 q).natAbs % 100 % 10), ?_, ?_, ?_, ?_⟩
  · simp
  · intro hc
    rcases List.mem_append.mp hc with h1 | h1
    · split at h1 <;> simp at h1
    · obtain ⟨k, hk, he⟩ := natToStr_mem _ _ h1
      exact (digitChar_props k hk).1 he.symm
  · exact (digitChar_props _ (by omega)).1
  · exact (digitChar_props _ (Nat.mod_lt _ (by omega))).1

theorem fmt2_mem (q : ℚ) (c : Char) (hc : c ∈ fmt2 q) : c ≠ '|' ∧ c ≠ ' ' := by
  unfold fmt2 twoDigits at hc
  rcases List.mem_append.mp hc with h1 | h1
  · rcases List.mem_append.mp h1 with h2 | h2
    · split at h2
      · rcases List.mem_singleton.mp h2 with h
        rw [h]; exact ⟨by decide, by decide⟩
      · simp at h2
    · obtain ⟨k, hk, he⟩ := natToStr_mem _ _ h2
      rw [he]
      exact ⟨(digitChar_props k hk).2.1, (digitChar_props k hk).2.2⟩
  · rcases List.mem_cons.mp h1 with h2 | h2
    · rw [h2]; exact ⟨by decide, by decide⟩
    · rcases List.mem_cons.mp h2 with h3 | h3
      · rw [h3]; exact ⟨(digitChar_props _ (by omega)).2.1, (digitChar_props _ (by omega)).2.2⟩
      · rcases List.mem_singleton.mp h3 with h
        rw [h]
        exact ⟨(digitChar_props _ (Nat.mod_lt _ (by omega))).2.1,
          (digitChar_props _ (Nat.mod_lt _ (by omega))).2.2⟩

theorem pyFmtVal_no_bar (v : Val) : '|' ∉ pyFmtVal v := by
  intro hc
  cases v with
  | na => simp [pyFmtVal, lit] at hc
  | num q => exact (fmt2_mem q '|' hc).1 rfl

theorem ljust_mem (w : ℕ) (s : PyStr) (c : Char) (hc : c ∈ ljust w s) :
    c ∈ s ∨ c = ' ' := by
  unfold ljust at hc
  rcases List.mem_append.mp hc with h1 | h1
  · exact Or.inl h1
  · exact Or.inr (List.eq_of_mem_replicate h1)

theorem ljust_no_bar (w : ℕ) (s : PyStr) (h : '|' ∉ s) : '|' ∉ ljust w s := by
  intro hc
  rcases ljust_mem w s '|' hc with h1 | h1
  · exact h h1
  · cases h1

theorem cell_no_bar (m : Dict) (d : ℤ) : '|' ∉ ljust 6 (pyFmtVal (dictGet m d)) :=
  ljust_no_bar 6 _ (pyFmtVal_no_bar _)

/-- `format_row` is the `" | "`-intercalation of the padded label and the
padded value cells. -/
theorem format_row_intercalate (label : PyStr) (m : Dict) (dates : List ℤ)
    (hne : dates ≠ []) :
    format_row label m dates
      = List.intercalate (lit " | ")
          (ljust 35 label :: dates.map (fun d => ljust 6 (pyFmtVal (dictGet m d)))) := by
  unfold format_row
  cases h : dates.map (fun d => ljust 6 (pyFmtVal (dictGet m d))) with
  | nil => exact absurd (List.map_eq_nil_iff.mp h) hne
  | cons x xs =>
    rw [show List.intercalate (lit " | ") (ljust 35 label :: x :: xs)
        = ljust 35 label ++ lit " | " ++ List.intercalate (lit " | ") (x :: xs) from by
      simp [List.intercalate]]

theorem splitSep_format_row (label : PyStr) (m : Dict) (dates : List ℤ)
    (hl : '|' ∉ label) (hne : dates ≠ []) :
    splitSep (format_row label m dates)
      = ljust 35 label :: dates.map (fun d => ljust 6 (pyFmtVal (dictGet m d))) := by
  rw [format_row_intercalate label m dates hne]
  refine splitSep_intercalate _ (by simp) ?_
  intro p hp
  rcases List.mem_cons.mp hp with h1 | h1
  · rw [h1]; exact ljust_no_bar 35 label hl
  · obtain ⟨d, _, he⟩ := List.mem_map.mp h1
    rw [← he]; exact cell_no_bar m d

/-! ## Claim C6 -/

/-- C6 counterexample: on the empty date list the rendered row still ends
with the delimiter, so splitting yields 2 cells (the padded label and one
empty cell) where "exactly one cell per date" (label plus 0 value cells,
i.e. 1 cell) demands 1. -/
theorem format_row_empty_dates_cex :
    (splitSep (format_row (lit "WTI crude price") [] [])).length = 2 ∧
    ([] : List ℤ).length + 1 = 1 := by decide

/-- C6 (amended to nonempty date lists and labels free of the delimiter,
which the program's five labels are): `format_row` renders sentinel and
missing values as `"N/A"` (never raising), renders numbers with exactly
two decimal places, and splitting the row on `" | "` yields the label cell
followed by exactly one cell per date. -/
theorem format_row_props (label : PyStr) (m : Dict) (dates : List ℤ)
    (hl : '|' ∉ label) (hne : dates ≠ []) :
    splitSep (format_row label m dates)
      = ljust 35 label :: dates.map (fun d => ljust 6 (pyFmtVal (dictGet m d)))
    ∧ (splitSep (format_row label m dates)).length = dates.length + 1
    ∧ pyFmtVal Val.na = lit "N/A"
    ∧ (∀ d : ℤ, d ∉ m.map Prod.fst → pyFmtVal (dictGet m d) = lit "N/A")
    ∧ (∀ q : ℚ, ∃ a b1 b2, fmt2 q = a ++ '.' :: [b1, b2] ∧ '.' ∉ a ∧ b1 ≠ '.' ∧ b2 ≠ '.') := by
  have hsplit := splitSep_format_row label m dates hl hne
  refine ⟨hsplit, ?_, rfl, ?_, fmt2_decimals⟩
  · rw [hsplit]; simp
  · intro d hd
    have : dictGet m d = Val.na := by
      unfold dictGet
      cases hf : m.find? (fun p => p.1 = d) with
      | none => rfl
      | some p =>
        exfalso
        have hmem := List.find?_some hf
        have hpm := List.mem_of_find?_eq_some hf
        simp at hmem
        exact hd (hmem ▸ List.mem_map_of_mem Prod.fst hpm)
    rw [this]; rfl

theorem format_row_props_witness :
    ('|' ∉ lit "WTI crude price" ∧ ([20253, 20254, 20255] : List ℤ) ≠ []) ∧
    (splitSep (format_row (lit "WTI crude price") [] [20253, 20254, 20255])
      = ljust 35 (lit "WTI crude price")
        :: ([20253, 20254, 20255] : List ℤ).map
            (fun d => ljust 6 (pyFmtVal (dictGet [] d)))
    ∧ (splitSep (format_row (lit "WTI crude price") [] [20253, 20254, 20255])).length
        = ([20253, 20254, 20255] : List ℤ).length + 1
    ∧ pyFmtVal Val.na = lit "N/A"
    ∧ (∀ d : ℤ, d ∉ ([] : Dict).map Prod.fst → pyFmtVal (dictGet [] d) = lit "N/A")
    ∧ (∀ q : ℚ, ∃ a b1 b2, fmt2 q = a ++ '.' :: [b1, b2] ∧ '.' ∉ a ∧ b1 ≠ '.' ∧ b2 ≠ '.')) :=
  ⟨⟨by decide, by decide⟩,
   format_row_props (lit "WTI crude price") [] [20253, 20254, 20255] (by decide) (by decide)⟩

/-! ## Claim C10 -/

/-- C10: on dates 2025-06-14/15/16 and the WTI series 70.12 / sentinel /
71.00, the formatter renders the row `WTI crude price | 70.12 | N/A |
71.00` with the configured widths honored: the label is padded to 35 and
each value cell to 6 characters, and stripping the padding from the split
cells recovers exactly those tokens. -/
theorem wti_row_rendering :
    format_row (lit "WTI crude price") wtiC10 [20253, 20254, 20255]
      = lit "WTI crude price                     | 70.12  | N/A    | 71.00 "
    ∧ (splitSep (format_row (lit "WTI crude price") wtiC10 [20253, 20254, 20255])).map trimR
      = [lit "WTI crude price", lit "70.12", lit "N/A", lit "71.00"] := by decide

/-! ## Claim C7 -/

/-- C7: for every run the report dates are unique and sorted ascending,
the formatter produces the report body, and each of the five series rows
(WTI, Brent, VLSFO, LSMGO, HSFO) splits into its label cell followed by
exactly one value cell per report date — never missing, never
duplicated. -/
theorem report_invariants (today : ℤ) (wti brent : Dict) (bk : BunkerData) :
    (get_past_business_dates today 3).Nodup
    ∧ (get_past_business_dates today 3).Sorted (fun a b => a < b)
    ∧ (∃ body, format_email_content (get_past_business_dates today 3) wti brent bk
        = Except.ok body)
    ∧ ∀ pr ∈ reportRows wti brent bk,
        splitSep (format_row pr.1 pr.2 (get_past_business_dates today 3))
          = ljust 35 pr.1
            :: (get_past_business_dates today 3).map
                (fun d => ljust 6 (pyFmtVal (dictGet pr.2 d))) := by
  have hlen := gpbd_length today 3
  have hne : get_past_business_dates today 3 ≠ [] := by
    intro h; rw [h] at hlen; simp at hlen
  refine ⟨gpbd_nodup today 3, gpbd_sorted_lt today 3, ?_, ?_⟩
  · obtain ⟨a, b, c, habc⟩ := List.length_eq_three.mp hlen
    unfold format_email_content
    rw [List.Sorted.insertionSort_eq (gpbd_sorted_le today 3), habc]
    exact ⟨_, rfl⟩
  · intro pr hpr
    have hlab : '|' ∉ pr.1 := by
      simp only [reportRows, List.mem_cons, List.mem_singleton, List.not_mem_nil,
        or_false] at hpr
      rcases hpr with h | h | h | h | h <;> rw [h] <;>
        first
        | exact (by decide : '|' ∉ labelWTI)
        | exact (by decide : '|' ∉ labelBrent)
        | exact (by decide : '|' ∉ labelVLSFO)
        | exact (by decide : '|' ∉ labelLSMGO)
        | exact (by decide : '|' ∉ labelHSFO)
    exact splitSep_format_row pr.1 pr.2 _ hlab hne

/-! ## Claim C8 -/

/-- C8: on any SMTP transport failure (authentication errors included)
`send_email` returns normally with the failure diagnostic as its only
output — the embedding's total return type reflects the
`try`/`except Exception` that swallows every transport error — and
whenever the run completes, its console output contains the formatted
report strictly before `send_email`'s output, independently of the
delivery outcome. -/
theorem send_email_soft_fail (env : Env) (m : PyStr)
    (hfail : env.smtp = SmtpOutcome.authError m ∨ env.smtp = SmtpOutcome.otherError m) :
    send_email env.smtp = [lit "Failed to send email: " ++ m]
    ∧ ∀ out, mainRun env = Except.ok out →
        ∃ pre bres body,
          fetch_singapore_bunker_prices env.bunkerPage env.today = Except.ok bres
          ∧ format_email_content (get_past_business_dates env.today 3)
              (fetch_crude_price env.wtiResp (get_past_business_dates env.today 3)).1
              (fetch_crude_price env.brentResp (get_past_business_dates env.today 3)).1
              bres.data = Except.ok body
          ∧ out = pre ++ body :: send_email env.smtp := by
  constructor
  · rcases hfail with h | h <;> rw [h] <;> rfl
  · intro out hout
    unfold mainRun at hout
    cases hb : fetch_singapore_bunker_prices env.bunkerPage env.today with
    | error e => rw [hb] at hout; cases hout
    | ok bres =>
      rw [hb] at hout
      dsimp only at hout
      cases hf : format_email_content (get_past_business_dates env.today 3)
          (fetch_crude_price env.wtiResp (get_past_business_dates env.today 3)).1
          (fetch_crude_price env.brentResp (get_past_business_dates env.today 3)).1
          bres.data with
      | error e => rw [hf] at hout; cases hout
      | ok body =>
        rw [hf] at hout
        injection hout with he
        refine ⟨(fetch_crude_price env.wtiResp (get_past_business_dates env.today 3)).2
          ++ (fetch_crude_price env.brentResp (get_past_business_dates env.today 3)).2
          ++ bres.log, bres, body, rfl, hf, ?_⟩
        exact he.symm

theorem send_email_soft_fail_witness :
    (envC8.smtp = SmtpOutcome.authError (lit "535 auth failed") ∨
      envC8.smtp = SmtpOutcome.otherError (lit "535 auth failed")) ∧
    (send_email envC8.smtp = [lit "Failed to send email: " ++ lit "535 auth failed"]
    ∧ ∀ out, mainRun envC8 = Except.ok out →
        ∃ pre bres body,
          fetch_singapore_bunker_prices envC8.bunkerPage envC8.today = Except.ok bres
          ∧ format_email_content (get_past_business_dates envC8.today 3)
              (fetch_crude_price envC8.wtiResp (get_past_business_dates envC8.today 3)).1
              (fetch_crude_price envC8.brentResp (get_past_business_dates envC8.today 3)).1
              bres.data = Except.ok body
          ∧ out = pre ++ body :: send_email envC8.smtp) :=
  ⟨Or.inl rfl, send_email_soft_fail envC8 (lit "535 auth failed") (Or.inl rfl)⟩

/-! ## Claim C1 -/

/-- C1 counterexample: on a page whose matching table has the full header
row but no `<tbody>` element — so no Singapore row can be located — the
function does not return the sentinel set: `price_table.find('tbody')` is
`None` and `.find_all('tr')` on it raises an uncaught `AttributeError`. -/
theorem bunker_missing_tbody_raises :
    fetch_singapore_bunker_prices (some pageC1) 6 = Except.error PyExn.attributeError := by
  decide

/-- C1 (amended): the fetch failing, the prices table not being found, the
required column headers not all being found, or the Singapore-row scan
completing without a match (which requires the located table to have a
`<tbody>` and each nonempty body row to be long enough to index the Port
column) all return the fully sentinel `BunkerPriceSet` with exactly one
diagnostic logged and no exception; the remaining row-location failures
(no `<tbody>`, or a short nonempty row before any Singapore match) raise
instead, as the counterexample shows. -/
theorem bunker_soft_miss (page? : Option Page) (today : ℤ)
    (h : page? = none
      ∨ (∃ p, page? = some p ∧ findPriceTable p.tables = none)
      ∨ (∃ p t, page? = some p ∧ findPriceTable p.tables = some t ∧
          ((buildIndices (headerCellsOf t)).port = none ∨
           (buildIndices (headerCellsOf t)).vlsfo = none ∨
           (buildIndices (headerCellsOf t)).lsmgo = none ∨
           (buildIndices (headerCellsOf t)).hsfo = none))
      ∨ (∃ p t rows pi, page? = some p ∧ findPriceTable p.tables = some t ∧
          t.tbodyRows = some rows ∧ (buildIndices (headerCellsOf t)).port = some pi ∧
          findSingaporeRow rows pi = Except.ok none)) :
    (∃ msg, fetch_singapore_bunker_prices page? today
        = Except.ok ⟨initBunker today, [msg]⟩)
    ∧ ∀ d : ℤ, dictGet (initBunker today).vlsfo d = Val.na
        ∧ dictGet (initBunker today).lsmgo d = Val.na
        ∧ dictGet (initBunker today).hsfo d = Val.na := by
  constructor
  · rcases h with h | ⟨p, hp, hft⟩ | ⟨p, t, hp, hft, hmiss⟩ |
      ⟨p, t, rows, pi, hp, hft, htb, hport, hrow⟩
    · subst h; exact ⟨_, rfl⟩
    · subst hp
      unfold fetch_singapore_bunker_prices
      dsimp only
      rw [hft]
      exact ⟨_, rfl⟩
    · subst hp
      unfold fetch_singapore_bunker_prices
      dsimp only
      rw [hft]
      dsimp only
      cases h1 : (buildIndices (headerCellsOf t)).port with
      | none => exact ⟨_, rfl⟩
      | some pi =>
        cases h2 : (buildIndices (headerCellsOf t)).vlsfo with
        | none => exact ⟨_, rfl⟩
        | some vi =>
          cases h3 : (buildIndices (headerCellsOf t)).lsmgo with
          | none => exact ⟨_, rfl⟩
          | some mi =>
            cases h4 : (buildIndices (headerCellsOf t)).hsfo with
            | none => exact ⟨_, rfl⟩
            | some hi =>
              rw [h1, h2, h3, h4] at hmiss
              simp at hmiss
    · subst hp
      unfold fetch_singapore_bunker_prices
      dsimp only
      rw [hft]
      dsimp only
      rw [hport]
      cases h2 : (buildIndices (headerCellsOf t)).vlsfo with
      | none => exact ⟨_, rfl⟩
      | some vi =>
        cases h3 : (buildIndices (headerCellsOf t)).lsmgo with
        | none => exact ⟨_, rfl⟩
        | some mi =>
          cases h4 : (buildIndices (headerCellsOf t)).hsfo with
          | none => exact ⟨_, rfl⟩
          | some hi =>
            unfold afterHeaders
            rw [htb]
            dsimp only
            rw [hrow]
            exact ⟨_, rfl⟩
  · intro d
    refine ⟨?_, ?_, ?_⟩ <;>
      exact dictGet_of_all_na _ d (fun p hp => initSeries_all_na _ p hp)

theorem bunker_soft_miss_witness :
    ((none : Option Page) = none
      ∨ (∃ p, (none : Option Page) = some p ∧ findPriceTable p.tables = none)
      ∨ (∃ p t, (none : Option Page) = some p ∧ findPriceTable p.tables = some t ∧
          ((buildIndices (headerCellsOf t)).port = none ∨
           (buildIndices (headerCellsOf t)).vlsfo = none ∨
           (buildIndices (headerCellsOf t)).lsmgo = none ∨
           (buildIndices (headerCellsOf t)).hsfo = none))
      ∨ (∃ p t rows pi, (none : Option Page) = some p ∧ findPriceTable p.tables = some t ∧
          t.tbodyRows = some rows ∧ (buildIndices (headerCellsOf t)).port = some pi ∧
          findSingaporeRow rows pi = Except.ok none)) ∧
    ((∃ msg, fetch_singapore_bunker_prices none 6
        = Except.ok ⟨initBunker 6, [msg]⟩)
    ∧ ∀ d : ℤ, dictGet (initBunker 6).vlsfo d = Val.na
        ∧ dictGet (initBunker 6).lsmgo d = Val.na
        ∧ dictGet (initBunker 6).hsfo d = Val.na) :=
  ⟨Or.inl rfl, bunker_soft_miss none 6 (Or.inl rfl)⟩

/-! ## Claim C9 -/

/-- C9: whenever the bunker extraction fully succeeds (it returns normally
and prints no diagnostic), the date that receives the scraped value is the
most recent report date — the greatest of the three report dates — and in
each fuel's series it holds a numeric value while every other date holds
the sentinel. -/
theorem bunker_success_latest_only (page? : Option Page) (today : ℤ) (res : BunkerResult)
    (hok : fetch_singapore_bunker_prices page? today = Except.ok res)
    (hlog : res.log = []) :
    ((get_past_business_dates today 1).getD 0 0 ∈ get_past_business_dates today 3)
    ∧ (∀ x ∈ get_past_business_dates today 3, x ≤ (get_past_business_dates today 1).getD 0 0)
    ∧ (∃ q, dictGet res.data.vlsfo ((get_past_business_dates today 1).getD 0 0) = Val.num q)
    ∧ (∃ q, dictGet res.data.lsmgo ((get_past_business_dates today 1).getD 0 0) = Val.num q)
    ∧ (∃ q, dictGet res.data.hsfo ((get_past_business_dates today 1).getD 0 0) = Val.num q)
    ∧ ∀ d : ℤ, d ≠ (get_past_business_dates today 1).getD 0 0 →
        dictGet res.data.vlsfo d = Val.na ∧ dictGet res.data.lsmgo d = Val.na
          ∧ dictGet res.data.hsfo d = Val.na := by
  have hlatest : (get_past_business_dates today 1).getD 0 0 = fw today := by
    rw [gpbd_one]; rfl
  have hmax := gpbd_three_max today
  refine ⟨by rw [hlatest]; exact hmax.1, by rw [hlatest]; exact hmax.2, ?_⟩
  cases page? with
  | none =>
    unfold fetch_singapore_bunker_prices at hok
    dsimp only at hok
    injection hok with he
    rw [← he] at hlog
    simp at hlog
  | some p =>
    unfold fetch_singapore_bunker_prices at hok
    dsimp only at hok
    cases hft : findPriceTable p.tables with
    | none =>
      rw [hft] at hok
      dsimp only at hok
      injection hok with he
      rw [← he] at hlog
      simp at hlog
    | some t =>
      rw [hft] at hok
      dsimp only at hok
      cases h1 : (buildIndices (headerCellsOf t)).port with
      | none =>
        rw [h1] at hok
        dsimp only at hok
        injection hok with he
        rw [← he] at hlog
        simp at hlog
      | some pi =>
        rw [h1] at hok
        cases h2 : (buildIndices (headerCellsOf t)).vlsfo with
        | none =>
          rw [h2] at hok
          dsimp only at hok
          injection hok with he
          rw [← he] at hlog
          simp at hlog
        | some vi =>
          rw [h2] at hok
          cases h3 : (buildIndices (headerCellsOf t)).lsmgo with
          | none =>
            rw [h3] at hok
            dsimp only at hok
            injection hok with he
            rw [← he] at hlog
            simp at hlog
          | some mi =>
            rw [h3] at hok
            cases h4 : (buildIndices (headerCellsOf t)).hsfo with
            | none =>
              rw [h4] at hok
              dsimp only at hok
              injection hok with he
              rw [← he] at hlog
              simp at hlog
            | some hi =>
              rw [h4] at hok
              dsimp only at hok
              unfold afterHeaders at hok
              cases htb : t.tbodyRows with
              | none =>
                rw [htb] at hok
                dsimp only at hok
                exact absurd hok (by simp)
              | some rows =>
                rw [htb] at hok
                dsimp only at hok
                cases hrow : findSingaporeRow rows pi with
                | error e =>
                  rw [hrow] at hok
                  dsimp only at hok
                  exact absurd hok (by simp)
                | ok cells? =>
                  rw [hrow] at hok
                  cases cells? with
                  | none =>
                    dsimp only at hok
                    injection hok with he
                    rw [← he] at hlog
                    simp at hlog
                  | some cells =>
                    dsimp only at hok
                    unfold tryParseRow at hok
                    dsimp only at hok
                    cases hv : cells.get? vi with
                    | none =>
                      rw [hv] at hok
                      dsimp only at hok
                      injection hok with he
                      rw [← he] at hlog
                      simp at hlog
                    | some sv =>
                      rw [hv] at hok
                      cases hm : cells.get? mi with
                      | none =>
                        rw [hm] at hok
                        dsimp only at hok
                        injection hok with he
                        rw [← he] at hlog
                        simp at hlog
                      | some sm =>
                        rw [hm] at hok
                        cases hh : cells.get? hi with
                        | none =>
                          rw [hh] at hok
                          dsimp only at hok
                          injection hok with he
                          rw [← he] at hlog
                          simp at hlog
                        | some sh =>
                          rw [hh] at hok
                          dsimp only at hok
                          cases hqv : pyFloat (stripCommas sv) with
                          | none =>
                            rw [hqv] at hok
                            dsimp only at hok
                            injection hok with he
                            rw [← he] at hlog
                            simp at hlog
                          | some qv =>
                            rw [hqv] at hok
                            dsimp only at hok
                            cases hqm : pyFloat (stripCommas sm) with
                            | none =>
                              rw [hqm] at hok
                              dsimp only at hok
                              injection hok with he
                              rw [← he] at hlog
                              simp at hlog
                            | some qm =>
                              rw [hqm] at hok
                              dsimp only at hok
                              cases hqh : pyFloat (stripCommas sh) with
                              | none =>
                                rw [hqh] at hok
                                dsimp only at hok
                                injection hok with he
                                rw [← he] at hlog
                                simp at hlog
                              | some qh =>
                                rw [hqh] at hok
                                dsimp only at hok
                                injection hok with he
                                refine ⟨⟨qv, ?_⟩, ⟨qm, ?_⟩, ⟨qh, ?_⟩, ?_⟩
                                · rw [← he]
                                  exact dictGet_dictSet_self _ _ _
                                · rw [← he]
                                  exact dictGet_dictSet_self _ _ _
                                · rw [← he]
                                  exact dictGet_dictSet_self _ _ _
                                · intro d hd
                                  rw [← he]
                                  refine ⟨?_, ?_, ?_⟩ <;>
                                    exact (dictGet_dictSet_ne _ _ _ _ hd).trans
                                      (dictGet_of_all_na _ d
                                        (fun p hp => initSeries_all_na _ p hp))

theorem bunker_success_latest_only_witness :
    (fetch_singapore_bunker_prices (some pageC9) 6 = Except.ok resC9 ∧ resC9.log = []) ∧
    (((get_past_business_dates 6 1).getD 0 0 ∈ get_past_business_dates 6 3)
    ∧ (∀ x ∈ get_past_business_dates 6 3, x ≤ (get_past_business_dates 6 1).getD 0 0)
    ∧ (∃ q, dictGet resC9.data.vlsfo ((get_past_business_dates 6 1).getD 0 0) = Val.num q)
    ∧ (∃ q, dictGet resC9.data.lsmgo ((get_past_business_dates 6 1).getD 0 0) = Val.num q)
    ∧ (∃ q, dictGet resC9.data.hsfo ((get_past_business_dates 6 1).getD 0 0) = Val.num q)
    ∧ ∀ d : ℤ, d ≠ (get_past_business_dates 6 1).getD 0 0 →
        dictGet resC9.data.vlsfo d = Val.na ∧ dictGet resC9.data.lsmgo d = Val.na
          ∧ dictGet resC9.data.hsfo d = Val.na) :=
  ⟨⟨by decide, rfl⟩, bunker_success_latest_only (some pageC9) 6 resC9 (by decide) rfl⟩
